import Mathlib

/-!
Verification of the remote-backed disk metadata layer (`Disks/IDiskRemote.cpp`).

A local "file" on a remote-backed disk is a small local metadata record listing
the remote objects holding its bytes, their sizes, a reference count and a
read-only flag.  This development embeds, as executable Lean functions:

* the line-oriented metadata file format: `Metadata.parse` / `Metadata.load`
  (the `IDiskRemote::Metadata` constructor) and `Metadata.save`;
* the mutators `Metadata.addObject`, `Metadata.create` (create mode);
* the reference-counted deletion engine `IDiskRemote.removeMeta`,
  `IDiskRemote.createHardLink`, `IDiskRemote.removeFileIfExists` and the
  recursive removal `IDiskRemote.removeRecursive` over a small local
  filesystem state (`FS`) with hard links (paths mapping to shared inodes);
* the reservation ledger `tryReserve` and the reservation destructor
  `reservationDestroy`.

Strings are modelled as `List Char`; C++ unsigned arithmetic is `Nat` with an
explicit `% 2 ^ w` where the source can wrap.  Fallible code returns
`Except ErrorCode _`, with `ErrorCode` mirroring the `DB::ErrorCodes` used by
the source; thrown exceptions are `.error` values.
-/

/-- Local byte strings (`std::string`). -/
abbrev Str : Type := List Char

deriving instance DecidableEq for Except

/-- The error codes thrown by the embedded code (`DB::ErrorCodes` plus the
codes raised by the IO helpers and collaborators it calls). `REMOTE_FS_ERROR`
stands for an arbitrary I/O error of the external remote object store. -/
inductive ErrorCode where
  | UNKNOWN_FORMAT
  | INCORRECT_DISK_INDEX
  | FILE_ALREADY_EXISTS
  | CANNOT_DELETE_DIRECTORY
  | ATTEMPT_TO_READ_AFTER_EOF
  | CANNOT_PARSE_NUMBER
  | CANNOT_PARSE_INPUT_ASSERTION_FAILED
  | CANNOT_PARSE_ESCAPE_SEQUENCE
  | CANNOT_LINK
  | TOO_DEEP_RECURSION
  | REMOTE_FS_ERROR
  deriving DecidableEq

/-- Width of `UInt32` values (`version`, object count, `ref_count`). -/
def UINT32_WIDTH : Nat := 2 ^ 32

/-- Width of `size_t`/`UInt64` values (object sizes, `total_size`). -/
def SIZE_T_WIDTH : Nat := 2 ^ 64

/-- The decimal digit character for `d < 10` (any larger value is clamped;
it is only ever applied to `n % 10`). -/
def digitChar : Nat → Char
  | 0 => '0'
  | 1 => '1'
  | 2 => '2'
  | 3 => '3'
  | 4 => '4'
  | 5 => '5'
  | 6 => '6'
  | 7 => '7'
  | 8 => '8'
  | _ => '9'

/-- Digits of `n` in order, with `n ≤ fuel`; empty for `n = 0`. -/
def natToDecAux : Nat → Nat → Str
  | 0, _ => []
  | fuel + 1, n =>
    if n = 0 then [] else natToDecAux fuel (n / 10) ++ [digitChar (n % 10)]

/-- Decimal rendering of an unsigned integer, as written by `writeIntText`. -/
def natToDec (n : Nat) : Str :=
  if n = 0 then ['0'] else natToDecAux n n

/-- Modelled from the spec: the escaping of one character by
`writeEscapedString` (`IO/WriteHelpers.h`, not under `src/`): a reversible
escape scheme where tab, newline, backslash, quote and control characters
become backslash sequences and every other byte is written as itself. -/
def escapeChar (c : Char) : Str :=
  if c = '\x08' then ['\\', 'b']
  else if c = '\x0c' then ['\\', 'f']
  else if c = '\n' then ['\\', 'n']
  else if c = '\r' then ['\\', 'r']
  else if c = '\t' then ['\\', 't']
  else if c = '\x00' then ['\\', '0']
  else if c = '\\' then ['\\', '\\']
  else if c = '\x27' then ['\\', '\x27']
  else [c]

/-- Modelled from the spec: `writeEscapedString` applied to a whole string. -/
def escapeString (s : Str) : Str :=
  s.foldr (fun c acc => escapeChar c ++ acc) []

/-- Modelled from the spec: decoding of the character after a backslash by
`readEscapedString` (`IO/ReadHelpers.h`, not under `src/`); characters with
no special meaning decode to themselves. -/
def unescapeChar (c : Char) : Char :=
  if c = 'b' then '\x08'
  else if c = 'f' then '\x0c'
  else if c = 'n' then '\n'
  else if c = 'r' then '\r'
  else if c = 't' then '\t'
  else if c = '0' then '\x00'
  else c

/-- A parser over the remaining input, returning a value and the rest of the
input, or the error code of the exception thrown (`ReadBuffer` reads). -/
def Parser (α : Type) : Type := Str → Except ErrorCode (α × Str)

/-- Parser returning a value without consuming input. -/
def ppure {α : Type} (a : α) : Parser α := fun s => .ok (a, s)

/-- Parser throwing an exception. -/
def pthrow {α : Type} (e : ErrorCode) : Parser α := fun _ => .error e

/-- Sequencing of parsers; an exception aborts the sequence. -/
def pbind {α β : Type} (p : Parser α) (f : α → Parser β) : Parser β := fun s =>
  match p s with
  | .ok (a, s1) => f a s1
  | .error e => .error e

/-- The digit-consuming loop of `readIntText`: `+` is skipped, a minus sign on
an unsigned type throws, digits accumulate with the wrap-around of the C++
unsigned type, and any other character ends the number (unconsumed). -/
def readIntTextLoop (width : Nat) : Str → Nat → Except ErrorCode (Nat × Str)
  | [], res => .ok (res, [])
  | c :: rest, res =>
    if c = '+' then readIntTextLoop width rest res
    else if c = '-' then .error .CANNOT_PARSE_NUMBER
    else if c.isDigit then readIntTextLoop width rest ((res * 10 + (c.toNat - 48)) % width)
    else .ok (res, c :: rest)

/-- Modelled from the spec: `readIntText` for an unsigned integer of the given
width (`IO/ReadHelpers.h`, not under `src/`): reading at end of input throws,
otherwise the longest (possibly empty) run of digits is consumed. -/
def readIntText (width : Nat) : Parser Nat := fun s =>
  match s with
  | [] => .error .ATTEMPT_TO_READ_AFTER_EOF
  | c :: rest => readIntTextLoop width (c :: rest) 0

/-- `assertChar c`: consume exactly `c` or throw. -/
def assertChar (c : Char) : Parser Unit := fun s =>
  match s with
  | [] => .error .CANNOT_PARSE_INPUT_ASSERTION_FAILED
  | d :: rest =>
    if d = c then .ok ((), rest) else .error .CANNOT_PARSE_INPUT_ASSERTION_FAILED

/-- Modelled from the spec: the loop of `readEscapedString`: read until an
unescaped tab or newline (left unconsumed) or end of input, decoding backslash
escape sequences; a backslash at end of input throws. -/
def readEscapedStringLoop : Str → Str → Except ErrorCode (Str × Str)
  | [], acc => .ok (acc.reverse, [])
  | c :: rest, acc =>
    if c = '\t' ∨ c = '\n' then .ok (acc.reverse, c :: rest)
    else if c = '\\' then
      match rest with
      | [] => .error .CANNOT_PARSE_ESCAPE_SEQUENCE
      | e :: rest2 => readEscapedStringLoop rest2 (unescapeChar e :: acc)
    else readEscapedStringLoop rest (c :: acc)

/-- Modelled from the spec: `readEscapedString` (`IO/ReadHelpers.h`). -/
def readEscapedString : Parser Str := fun s => readEscapedStringLoop s []

/-- `readBoolText`: read one character; anything other than `0` is true. -/
def readBoolText : Parser Bool := fun s =>
  match s with
  | [] => .error .ATTEMPT_TO_READ_AFTER_EOF
  | c :: rest => .ok (if c = '0' then false else true, rest)

/-- `writeBoolText`: `1` or `0`. -/
def writeBoolText (b : Bool) : Str := if b then ['1'] else ['0']

/-- Modelled from the spec: version constant from `Disks/IDiskRemote.h` (not
under `src/`): the legacy format storing absolute remote paths. -/
def VERSION_ABSOLUTE_PATHS : Nat := 1

/-- Modelled from the spec: version constant from `Disks/IDiskRemote.h`: the
format storing root-relative remote paths. -/
def VERSION_RELATIVE_PATHS : Nat := 2

/-- Modelled from the spec: version constant from `Disks/IDiskRemote.h`: the
newest format, which additionally stores the read-only flag. -/
def VERSION_READ_ONLY_FLAG : Nat := 3

/-- The in-memory metadata record (`IDiskRemote::Metadata`): construction
parameters, the list of (relative remote path, size) pairs, the aggregate
size, the reference count and the read-only flag. -/
structure Metadata where
  remote_fs_root_path : Str
  disk_path : Str
  metadata_file_path : Str
  total_size : Nat
  remote_fs_objects : List (Str × Nat)
  ref_count : Nat
  read_only : Bool
  deriving DecidableEq

/-- The object-list loop of the `Metadata` constructor: each line holds
`size \t escaped path`; under `VERSION_ABSOLUTE_PATHS` the path must start
with the remote root (else `UNKNOWN_FORMAT`) and the prefix is stripped. -/
def readRemoteObjects (root : Str) (version : Nat) : Nat → Parser (List (Str × Nat))
  | 0 => ppure []
  | n + 1 =>
    pbind (readIntText SIZE_T_WIDTH) fun remote_fs_object_size =>
    pbind (assertChar '\t') fun _ =>
    pbind readEscapedString fun raw_path =>
    pbind
      (if version = VERSION_ABSOLUTE_PATHS then
        if root.isPrefixOf raw_path then ppure (raw_path.drop root.length)
        else pthrow .UNKNOWN_FORMAT
      else ppure raw_path) fun remote_fs_object_path =>
    pbind (assertChar '\n') fun _ =>
    pbind (readRemoteObjects root version n) fun rest =>
    ppure ((remote_fs_object_path, remote_fs_object_size) :: rest)

/-- The body of the `IDiskRemote::Metadata` constructor (load mode), reading
the version line, the counts line, the object lines, the reference count and,
for `VERSION_READ_ONLY_FLAG` files, the read-only flag. -/
def Metadata.parse (remote_fs_root_path disk_path metadata_file_path : Str) :
    Parser Metadata :=
  pbind (readIntText UINT32_WIDTH) fun version =>
  pbind (assertChar '\n') fun _ =>
  pbind
    (if version < VERSION_ABSOLUTE_PATHS ∨ VERSION_READ_ONLY_FLAG < version then
      pthrow .UNKNOWN_FORMAT
    else ppure ()) fun _ =>
  pbind (readIntText UINT32_WIDTH) fun remote_fs_objects_count =>
  pbind (assertChar '\t') fun _ =>
  pbind (readIntText SIZE_T_WIDTH) fun total_size =>
  pbind (assertChar '\n') fun _ =>
  pbind (readRemoteObjects remote_fs_root_path version remote_fs_objects_count) fun objs =>
  pbind (readIntText UINT32_WIDTH) fun ref_count =>
  pbind (assertChar '\n') fun _ =>
  pbind
    (if VERSION_READ_ONLY_FLAG ≤ version then
      pbind readBoolText fun ro =>
      pbind (assertChar '\n') fun _ =>
      ppure ro
    else ppure false) fun read_only =>
  ppure { remote_fs_root_path, disk_path, metadata_file_path, total_size,
          remote_fs_objects := objs, ref_count, read_only }

/-- Loading a metadata record from file contents: the constructor's catch
block re-raises `UNKNOWN_FORMAT` verbatim and wraps every other exception
into a new `UNKNOWN_FORMAT` exception, so every load failure surfaces as
`UNKNOWN_FORMAT`. -/
def Metadata.load (root disk_path metadata_file_path contents : Str) :
    Except ErrorCode Metadata :=
  match Metadata.parse root disk_path metadata_file_path contents with
  | .ok (m, _) => .ok m
  | .error _ => .error .UNKNOWN_FORMAT

/-- The `Metadata` constructor in create mode: an empty record, no file read. -/
def Metadata.create (remote_fs_root_path disk_path metadata_file_path : Str) : Metadata :=
  { remote_fs_root_path, disk_path, metadata_file_path,
    total_size := 0, remote_fs_objects := [], ref_count := 0, read_only := false }

/-- `Metadata::addObject`: append one (path, size) pair and add the size to
`total_size` (a `size_t` addition, hence the wrap). -/
def Metadata.addObject (m : Metadata) (path : Str) (size : Nat) : Metadata :=
  { m with total_size := (m.total_size + size) % SIZE_T_WIDTH,
           remote_fs_objects := m.remote_fs_objects ++ [(path, size)] }

/-- `Metadata::save`: always writes `VERSION_RELATIVE_PATHS` as the version
tag, then the counts line, the object lines with relative paths, the
reference count, and (unconditionally) the read-only flag line. -/
def Metadata.save (m : Metadata) : Str :=
  natToDec VERSION_RELATIVE_PATHS ++ '\n' ::
  (natToDec m.remote_fs_objects.length ++ '\t' :: natToDec m.total_size ++ '\n' ::
  m.remote_fs_objects.foldr
    (fun o acc => natToDec o.2 ++ '\t' :: escapeString o.1 ++ '\n' :: acc)
    (natToDec m.ref_count ++ '\n' :: writeBoolText m.read_only ++ ['\n']))

/-- The per-disk reservation ledger (`IDiskRemote::reserved_bytes` and
`IDiskRemote::reservation_count`, read and written under
`reservation_mutex`). -/
structure ReservationLedger where
  reserved_bytes : Nat
  reservation_count : Nat
  deriving DecidableEq

/-- `IDiskRemote::tryReserve`.  `available_space` is the capacity reported by
the external collaborator `getAvailableSpace()` at the time of the call.
Returns whether the reservation succeeded together with the updated ledger.
(On success `reserved_bytes + bytes ≤ available_space < 2 ^ 64`, so the
`UInt64` addition cannot wrap.) -/
def tryReserve (available_space : Nat) (st : ReservationLedger) (bytes : Nat) :
    Bool × ReservationLedger :=
  if bytes = 0 then
    (true, { st with reservation_count := st.reservation_count + 1 })
  else
    let unreserved_space := available_space - min available_space st.reserved_bytes
    if bytes ≤ unreserved_space then
      (true, { reserved_bytes := st.reserved_bytes + bytes,
               reservation_count := st.reservation_count + 1 })
    else (false, st)

/-- `DiskRemoteReservation::~DiskRemoteReservation`: release a reservation of
`size` bytes.  Never throws; returns the updated ledger together with the two
"unbalanced" conditions that are logged as errors (reserved-bytes underflow,
which is clamped to zero, and an already-zero reservation count, which is
left at zero). -/
def reservationDestroy (st : ReservationLedger) (size : Nat) :
    ReservationLedger × Bool × Bool :=
  let unbalanced_bytes : Bool := decide (st.reserved_bytes < size)
  let st1 :=
    if unbalanced_bytes then { st with reserved_bytes := 0 }
    else { st with reserved_bytes := st.reserved_bytes - size }
  let unbalanced_count : Bool := decide (st1.reservation_count = 0)
  let st2 :=
    if unbalanced_count then st1
    else { st1 with reservation_count := st1.reservation_count - 1 }
  (st2, unbalanced_bytes, unbalanced_count)

/-- First value bound to a key in an association list. -/
def lookupA {κ α : Type} [DecidableEq κ] : List (κ × α) → κ → Option α
  | [], _ => none
  | (k, v) :: rest, key => if k = key then some v else lookupA rest key

/-- Replace the value bound to a key in an association list (first match). -/
def setA {κ α : Type} [DecidableEq κ] : List (κ × α) → κ → α → List (κ × α)
  | [], _, _ => []
  | (k, v) :: rest, key, val =>
    if k = key then (k, val) :: rest else (k, v) :: setA rest key val

/-- Remove every binding of a key from an association list. -/
def eraseA {κ α : Type} [DecidableEq κ] (l : List (κ × α)) (key : κ) : List (κ × α) :=
  l.filter fun e => ! decide (e.1 = key)

/-- The local filesystem holding the metadata record files, modelled at the
level the deletion engine observes: directory entries (`links`) map full local
paths to inodes, hard links being several paths sharing one inode; `inodes`
map inodes to file contents.  `dirPaths` lists the local paths that are
directories (the directory tree itself is static here).  `removedRemote`
records, in order, the remote object paths whose deletion has been issued to
the external remote store, and `warnings` counts the warnings logged. -/
structure FS where
  links : List (Str × Nat)
  inodes : List (Nat × Str)
  nextInode : Nat
  dirPaths : List Str
  removedRemote : List Str
  warnings : Nat
  deriving DecidableEq

/-- Contents of the file at a path, when the path is linked. -/
def FS.readFile (fs : FS) (p : Str) : Option Str :=
  match lookupA fs.links p with
  | none => none
  | some ino => lookupA fs.inodes ino

/-- `WriteBufferFromFile`: truncate-write through the directory entry (both
hard-linked paths observe the new contents); creating the file if absent. -/
def FS.writeFile (fs : FS) (p : Str) (contents : Str) : FS :=
  match lookupA fs.links p with
  | some ino => { fs with inodes := setA fs.inodes ino contents }
  | none =>
    { fs with links := (p, fs.nextInode) :: fs.links,
              inodes := (fs.nextInode, contents) :: fs.inodes,
              nextInode := fs.nextInode + 1 }

/-- `Poco::File::remove` on a plain file: drop the directory entry; the inode
(and its contents, if hard-linked elsewhere) survives under other links. -/
def FS.removeLink (fs : FS) (p : Str) : FS :=
  { fs with links := eraseA fs.links p }

/-- `Poco::File::isFile`: the path has a directory entry (is a plain file). -/
def FS.isFile (fs : FS) (p : Str) : Bool := (lookupA fs.links p).isSome

/-- `Poco::File::exists`: a plain file or a directory. -/
def FS.pathExists (fs : FS) (p : Str) : Bool :=
  fs.isFile p || fs.dirPaths.contains p

/-- The per-disk parameters of `IDiskRemote`.  `remote_delete_result` models
the external remote object store client used by `removeFromRemoteFS` (spec:
remote I/O errors propagate unchanged): `none` if its deletes succeed, or the
error it throws.  `dirs` is the directory-listing collaborator
(`iterateDirectory`): the disk-relative children of a directory path. -/
structure IDiskRemote where
  remote_fs_root_path : Str
  metadata_path : Str
  remote_delete_result : Option ErrorCode
  dirs : Str → List Str

/-- `IDiskRemote::readMeta`: load the metadata record at a local path.  A
missing file makes the constructor's file open throw, which its catch block
wraps into `UNKNOWN_FORMAT`. -/
def IDiskRemote.readMeta (disk : IDiskRemote) (fs : FS) (path : Str) :
    Except ErrorCode Metadata :=
  match fs.readFile (disk.metadata_path ++ path) with
  | none => .error .UNKNOWN_FORMAT
  | some contents => Metadata.load disk.remote_fs_root_path disk.metadata_path path contents

/-- `IDiskRemote::createMeta`: a fresh empty record bound to the path. -/
def IDiskRemote.createMeta (disk : IDiskRemote) (path : Str) : Metadata :=
  Metadata.create disk.remote_fs_root_path disk.metadata_path path

/-- Modelled from the spec: `removeFromRemoteFS` (pure virtual, implemented by
the concrete remote disk outside `src/`): issue a delete of every remote
object listed in the record; an I/O error of the remote store propagates. -/
def IDiskRemote.removeFromRemoteFS (disk : IDiskRemote) (fs : FS) (metadata : Metadata) :
    Except ErrorCode FS :=
  match disk.remote_delete_result with
  | some e => .error e
  | none =>
    .ok { fs with removedRemote := fs.removedRemote ++ metadata.remote_fs_objects.map Prod.fst }

/-- The try block of `IDiskRemote::removeMeta`: load the record; at
`ref_count == 0` remove the local file and, unless `keep_in_remote_fs`, purge
the remote objects; otherwise decrement `ref_count`, save, and remove the
local file. -/
def IDiskRemote.removeMetaTry (disk : IDiskRemote) (fs : FS) (path : Str)
    (keep_in_remote_fs : Bool) : Except ErrorCode FS :=
  match disk.readMeta fs path with
  | .error e => .error e
  | .ok metadata =>
    if metadata.ref_count = 0 then
      let fs1 := fs.removeLink (disk.metadata_path ++ path)
      if keep_in_remote_fs then .ok fs1 else disk.removeFromRemoteFS fs1 metadata
    else
      let metadata1 := { metadata with ref_count := metadata.ref_count - 1 }
      let fs1 := fs.writeFile (disk.metadata_path ++ path) (Metadata.save metadata1)
      .ok (fs1.removeLink (disk.metadata_path ++ path))

/-- `IDiskRemote::removeMeta`: a directory path throws
`CANNOT_DELETE_DIRECTORY`; an `UNKNOWN_FORMAT` failure inside the try block is
caught, a warning is logged and the local record file is removed forcibly;
any other exception propagates. -/
def IDiskRemote.removeMeta (disk : IDiskRemote) (fs : FS) (path : Str)
    (keep_in_remote_fs : Bool) : Except ErrorCode FS :=
  if fs.isFile (disk.metadata_path ++ path) = false then
    .error .CANNOT_DELETE_DIRECTORY
  else
    match disk.removeMetaTry fs path keep_in_remote_fs with
    | .ok fs1 => .ok fs1
    | .error e =>
      if e = .UNKNOWN_FORMAT then
        .ok { fs.removeLink (disk.metadata_path ++ path) with warnings := fs.warnings + 1 }
      else .error e

/-- Modelled from the spec: `DB::createHardLink` (`Common/createHardLink.h`,
not under `src/`): a filesystem-level hard link; fails if the source is
missing or the destination already exists. -/
def createHardLinkFS (fs : FS) (src dst : Str) : Except ErrorCode FS :=
  match lookupA fs.links src with
  | none => .error .CANNOT_LINK
  | some ino =>
    if (lookupA fs.links dst).isSome then .error .CANNOT_LINK
    else .ok { fs with links := (dst, ino) :: fs.links }

/-- `IDiskRemote::createHardLink`: load the source record, increment its
reference count (a `UInt32` increment), save it, then hard-link the local
record file of `src_path` to `dst_path`. -/
def IDiskRemote.createHardLink (disk : IDiskRemote) (fs : FS) (src_path dst_path : Str) :
    Except ErrorCode FS :=
  match disk.readMeta fs src_path with
  | .error e => .error e
  | .ok src =>
    let src1 := { src with ref_count := (src.ref_count + 1) % UINT32_WIDTH }
    let fs1 := fs.writeFile (disk.metadata_path ++ src_path) (Metadata.save src1)
    createHardLinkFS fs1 (disk.metadata_path ++ src_path) (disk.metadata_path ++ dst_path)

/-- `IDiskRemote::removeFileIfExists`: remove (not keeping remote data) only
when the local path exists. -/
def IDiskRemote.removeFileIfExists (disk : IDiskRemote) (fs : FS) (path : Str) :
    Except ErrorCode FS :=
  if fs.pathExists (disk.metadata_path ++ path) then disk.removeMeta fs path false
  else .ok fs

/-- `IDisk::removeFile` (`Disks/IDiskRemote.h`, not under `src/`; per the
spec's `RemoveFile`): remove without keeping remote data. -/
def IDiskRemote.removeFile (disk : IDiskRemote) (fs : FS) (path : Str) :
    Except ErrorCode FS :=
  disk.removeMeta fs path false

/-- One level of `IDiskRemote::removeRecursive`: a plain file is removed via
`removeFile`, otherwise the directory's children are each removed by the given
recursion.  (The final removal of the then-empty directory entry is not
tracked: the directory tree is a static collaborator here.) -/
def IDiskRemote.removeRecursiveGo (disk : IDiskRemote)
    (recurse : FS → Str → Except ErrorCode FS) (fs : FS) (path : Str) :
    Except ErrorCode FS :=
  if fs.isFile (disk.metadata_path ++ path) then disk.removeFile fs path
  else (disk.dirs path).foldlM recurse fs

/-- `IDiskRemote::removeRecursive`.  Modelled from the spec: `checkStackSize`
(`Common/checkStackSize.h`, not under `src/`) is an explicit stack-size check
performed on entry at every recursion step, throwing `TOO_DEEP_RECURSION`
when the remaining stack budget (here the explicit `Nat` argument) is
exhausted, rather than letting cyclic symbolic links crash the process. -/
def IDiskRemote.removeRecursive (disk : IDiskRemote) : Nat → FS → Str → Except ErrorCode FS
  | 0, _, _ => .error .TOO_DEEP_RECURSION
  | fuel + 1, fs, path => disk.removeRecursiveGo (disk.removeRecursive fuel) fs path

/-- The validity invariant of an in-memory record, i.e. the bounds imposed by
the C++ field types (`size_t` sizes, `UInt32` counts). -/
def Metadata.Valid (m : Metadata) : Prop :=
  m.total_size < SIZE_T_WIDTH ∧ m.ref_count < UINT32_WIDTH ∧
  m.remote_fs_objects.length < UINT32_WIDTH ∧
  ∀ o ∈ m.remote_fs_objects, o.2 < SIZE_T_WIDTH

/-- The object lines of a metadata file, as `save` writes them. -/
def renderObjects (objs : List (Str × Nat)) : Str :=
  objs.foldr (fun o acc => natToDec o.2 ++ '\t' :: escapeString o.1 ++ '\n' :: acc) []

/-- A whole metadata file of a given version without the read-only line (the
layout of `VERSION_ABSOLUTE_PATHS` and `VERSION_RELATIVE_PATHS` files). -/
def renderFile (version : Nat) (objs : List (Str × Nat)) (total ref : Nat) : Str :=
  natToDec version ++ '\n' ::
  (natToDec objs.length ++ '\t' :: natToDec total ++ '\n' ::
  (renderObjects objs ++ natToDec ref ++ ['\n']))

/-! ### Lemmas: decimal rendering and `readIntText` -/

theorem digitChar_facts (d : Nat) (h : d < 10) :
    (digitChar d).isDigit = true ∧ (digitChar d).toNat - 48 = d ∧
    digitChar d ≠ '+' ∧ digitChar d ≠ '-' := by
  interval_cases d <;> exact ⟨rfl, rfl, by decide, by decide⟩

theorem natToDecAux_ne_nil (fuel n : Nat) (h1 : n ≠ 0) (h2 : n ≤ fuel) :
    natToDecAux fuel n ≠ [] := by
  cases fuel with
  | zero => omega
  | succ fuel => simp [natToDecAux, h1]

theorem natToDec_ne_nil (n : Nat) : natToDec n ≠ [] := by
  by_cases h : n = 0
  · simp [natToDec, h]
  · simpa [natToDec, h] using natToDecAux_ne_nil n n h le_rfl

theorem readIntTextLoop_natToDecAux (width : Nat) (hW : 0 < width) :
    ∀ fuel n res rest, n ≤ fuel → res < width →
      readIntTextLoop width (natToDecAux fuel n ++ rest) res =
        readIntTextLoop width rest
          ((res * 10 ^ (natToDecAux fuel n).length + n) % width) := by
  intro fuel
  induction fuel with
  | zero =>
    intro n res rest hn hres
    interval_cases n
    simp [natToDecAux, Nat.mod_eq_of_lt hres]
  | succ fuel ih =>
    intro n res rest hn hres
    by_cases h0 : n = 0
    · subst h0
      simp [natToDecAux, Nat.mod_eq_of_lt hres]
    · have hstep : natToDecAux (fuel + 1) n
          = natToDecAux fuel (n / 10) ++ [digitChar (n % 10)] := by
        simp [natToDecAux, h0]
      have hdiv : n / 10 ≤ fuel := by omega
      obtain ⟨hdig, hval, hplus, hminus⟩ := digitChar_facts (n % 10) (Nat.mod_lt n (by norm_num))
      rw [hstep, List.append_assoc, List.singleton_append]
      rw [ih (n / 10) res (digitChar (n % 10) :: rest) hdiv hres]
      rw [readIntTextLoop]
      rw [if_neg hplus, if_neg hminus, if_pos hdig, hval]
      have harith :
          (((res * 10 ^ (natToDecAux fuel (n / 10)).length + n / 10) % width) * 10 + n % 10) % width
            = (res * 10 ^ ((natToDecAux fuel (n / 10)).length + 1) + n) % width := by
        rw [Nat.add_mod, Nat.mod_mul_mod, ← Nat.add_mod]
        congr 1
        rw [pow_succ, ← mul_assoc]
        generalize res * 10 ^ (natToDecAux fuel (n / 10)).length = R
        omega
      rw [harith]
      congr 2
      simp

theorem readIntTextLoop_stop (width res : Nat) (rest : Str)
    (hstop : ∀ c rest2, rest = c :: rest2 → c.isDigit = false ∧ c ≠ '+' ∧ c ≠ '-') :
    readIntTextLoop width rest res = .ok (res, rest) := by
  cases rest with
  | nil => rfl
  | cons c rest2 =>
    obtain ⟨h1, h2, h3⟩ := hstop c rest2 rfl
    simp [readIntTextLoop, h1, h2, h3]

theorem stop_of_head (c0 : Char) (h0 : c0.isDigit = false) (hp : c0 ≠ '+') (hm : c0 ≠ '-')
    (t : Str) : ∀ c rest2, (c0 :: t) = c :: rest2 → c.isDigit = false ∧ c ≠ '+' ∧ c ≠ '-' := by
  intro c r2 h
  injection h with h1 h2
  subst h1
  exact ⟨h0, hp, hm⟩

theorem readIntText_natToDec (width n : Nat) (rest : Str) (hW : 0 < width)
    (hstop : ∀ c rest2, rest = c :: rest2 → c.isDigit = false ∧ c ≠ '+' ∧ c ≠ '-') :
    readIntText width (natToDec n ++ rest) = .ok (n % width, rest) := by
  have hloop : readIntTextLoop width (natToDec n ++ rest) 0 = .ok (n % width, rest) := by
    by_cases h0 : n = 0
    · subst h0
      show readIntTextLoop width ('0' :: rest) 0 = _
      rw [readIntTextLoop, if_neg (by decide), if_neg (by decide), if_pos (by decide)]
      simpa using readIntTextLoop_stop width 0 rest hstop
    · show readIntTextLoop width (natToDec n ++ rest) 0 = _
      rw [natToDec, if_neg h0]
      rw [readIntTextLoop_natToDecAux width hW n n 0 rest le_rfl hW]
      simpa using readIntTextLoop_stop width (n % width) rest hstop
  cases hnd : natToDec n ++ rest with
  | nil => exact absurd (List.append_eq_nil.mp hnd).1 (natToDec_ne_nil n)
  | cons c r =>
    show readIntTextLoop width (c :: r) 0 = _
    rw [← hnd, hloop]

theorem readIntText_natToDec_lt (width n : Nat) (rest : Str) (hn : n < width)
    (hstop : ∀ c rest2, rest = c :: rest2 → c.isDigit = false ∧ c ≠ '+' ∧ c ≠ '-') :
    readIntText width (natToDec n ++ rest) = .ok (n, rest) := by
  rw [readIntText_natToDec width n rest (Nat.pos_of_ne_zero (by omega)) hstop,
      Nat.mod_eq_of_lt hn]

/-! ### Lemmas: escaping round-trip -/

theorem escapeString_cons (c : Char) (p : Str) :
    escapeString (c :: p) = escapeChar c ++ escapeString p := rfl

theorem escapeChar_cases (c : Char) :
    (∃ e, escapeChar c = ['\\', e] ∧ unescapeChar e = c) ∨
      (escapeChar c = [c] ∧ c ≠ '\t' ∧ c ≠ '\n' ∧ c ≠ '\\') := by
  unfold escapeChar
  split_ifs with h1 h2 h3 h4 h5 h6 h7 h8
  · exact .inl ⟨'b', rfl, by rw [h1]; rfl⟩
  · exact .inl ⟨'f', rfl, by rw [h2]; rfl⟩
  · exact .inl ⟨'n', rfl, by rw [h3]; rfl⟩
  · exact .inl ⟨'r', rfl, by rw [h4]; rfl⟩
  · exact .inl ⟨'t', rfl, by rw [h5]; rfl⟩
  · exact .inl ⟨'0', rfl, by rw [h6]; rfl⟩
  · exact .inl ⟨'\\', rfl, by rw [h7]; rfl⟩
  · exact .inl ⟨'\x27', rfl, by rw [h8]; rfl⟩
  · exact .inr ⟨rfl, h5, h3, h7⟩

theorem readEscapedStringLoop_cons (c : Char) (rest acc : Str) :
    readEscapedStringLoop (c :: rest) acc =
      if c = '\t' ∨ c = '\n' then .ok (acc.reverse, c :: rest)
      else if c = '\\' then
        match rest with
        | [] => .error .CANNOT_PARSE_ESCAPE_SEQUENCE
        | e :: rest2 => readEscapedStringLoop rest2 (unescapeChar e :: acc)
      else readEscapedStringLoop rest (c :: acc) := by
  rw [readEscapedStringLoop.eq_def]
  rfl

theorem readEscapedStringLoop_escape (p : Str) :
    ∀ acc rest, readEscapedStringLoop (escapeString p ++ rest) acc =
      readEscapedStringLoop rest (p.reverse ++ acc) := by
  induction p with
  | nil => intro acc rest; simp [escapeString]
  | cons c p ih =>
    intro acc rest
    rw [escapeString_cons, List.append_assoc]
    rcases escapeChar_cases c with ⟨e, he, hu⟩ | ⟨he, h1, h2, h3⟩
    · rw [he]
      show readEscapedStringLoop ('\\' :: e :: (escapeString p ++ rest)) acc = _
      rw [readEscapedStringLoop_cons]
      rw [if_neg (by decide), if_pos rfl]
      show readEscapedStringLoop (escapeString p ++ rest) (unescapeChar e :: acc) = _
      rw [hu, ih (c :: acc) rest]
      simp
    · rw [he]
      show readEscapedStringLoop (c :: (escapeString p ++ rest)) acc = _
      rw [readEscapedStringLoop_cons]
      rw [if_neg (by simp [h1, h2]), if_neg h3]
      rw [ih (c :: acc) rest]
      simp

theorem readEscapedString_escape (p rest : Str)
    (hstop : ∀ c rest2, rest = c :: rest2 → c = '\t' ∨ c = '\n') :
    readEscapedString (escapeString p ++ rest) = .ok (p, rest) := by
  show readEscapedStringLoop (escapeString p ++ rest) [] = _
  rw [readEscapedStringLoop_escape p [] rest]
  cases rest with
  | nil => simp [readEscapedStringLoop]
  | cons c rest2 =>
    have hc := hstop c rest2 rfl
    rw [readEscapedStringLoop_cons, if_pos hc]
    simp

/-! ### Lemmas: parser combinators -/

theorem pbind_ok {α β : Type} {p : Parser α} {f : α → Parser β} {s s1 : Str} {a : α}
    (h : p s = .ok (a, s1)) : pbind p f s = f a s1 := by
  simp [pbind, h]

theorem pbind_error {α β : Type} {p : Parser α} {f : α → Parser β} {s : Str} {e : ErrorCode}
    (h : p s = .error e) : pbind p f s = .error e := by
  simp [pbind, h]

theorem ppure_apply {α : Type} (a : α) (s : Str) : ppure a s = .ok (a, s) := rfl

theorem pthrow_apply {α : Type} (e : ErrorCode) (s : Str) : pthrow (α := α) e s = .error e := rfl

theorem assertChar_self (c : Char) (rest : Str) : assertChar c (c :: rest) = .ok ((), rest) := by
  simp [assertChar]

theorem isPrefixOf_append_self (r p : Str) : r.isPrefixOf (r ++ p) = true := by
  induction r with
  | nil => cases p <;> rfl
  | cons a r ih => simpa [List.isPrefixOf] using ih

theorem stopEsc (t : Str) : ∀ c rest2, ('\n' :: t) = c :: rest2 → c = '\t' ∨ c = '\n' := by
  intro c r2 h
  injection h with h1 _
  subst h1
  exact .inr rfl

/-! ### Lemmas: parsing rendered metadata files -/

theorem renderObjects_cons (o : Str × Nat) (objs : List (Str × Nat)) :
    renderObjects (o :: objs) =
      natToDec o.2 ++ '\t' :: escapeString o.1 ++ '\n' :: renderObjects objs := rfl

theorem renderObjects_append (objs : List (Str × Nat)) (tail : Str) :
    renderObjects objs ++ tail =
      objs.foldr (fun o acc => natToDec o.2 ++ '\t' :: escapeString o.1 ++ '\n' :: acc) tail := by
  induction objs with
  | nil => rfl
  | cons o objs ih =>
    rw [renderObjects_cons, List.foldr_cons, ← ih]
    simp [List.append_assoc]

theorem save_eq_renderFile (m : Metadata) :
    Metadata.save m =
      renderFile VERSION_RELATIVE_PATHS m.remote_fs_objects m.total_size m.ref_count
        ++ (writeBoolText m.read_only ++ ['\n']) := by
  rw [Metadata.save, renderFile]
  simp only [List.append_assoc, List.cons_append, List.singleton_append]
  rw [renderObjects_append]
  simp

theorem readRemoteObjects_render (root : Str) (version : Nat)
    (stored objs : List (Str × Nat)) (rest : Str)
    (hsz : ∀ o ∈ objs, o.2 < SIZE_T_WIDTH)
    (hver : (version = VERSION_ABSOLUTE_PATHS ∧ stored = objs.map fun o => (root ++ o.1, o.2)) ∨
            (version = VERSION_RELATIVE_PATHS ∧ stored = objs)) :
    readRemoteObjects root version objs.length (renderObjects stored ++ rest) =
      .ok (objs, rest) := by
  induction objs generalizing stored rest with
  | nil =>
    rcases hver with ⟨hv, hs⟩ | ⟨hv, hs⟩ <;> subst hs <;>
      simp [renderObjects, readRemoteObjects, ppure]
  | cons o objs ih =>
    have hszhd : o.2 < SIZE_T_WIDTH := hsz o (List.mem_cons_self o objs)
    have hsztl : ∀ o2 ∈ objs, o2.2 < SIZE_T_WIDTH :=
      fun o2 ho2 => hsz o2 (List.mem_cons_of_mem o ho2)
    rcases hver with ⟨hv, hs⟩ | ⟨hv, hs⟩
    · subst hv hs
      rw [List.map_cons, renderObjects_cons, List.length_cons, readRemoteObjects]
      simp only [List.append_assoc, List.cons_append]
      rw [pbind_ok (readIntText_natToDec_lt _ _ _ hszhd
            (stop_of_head '\t' (by decide) (by decide) (by decide) _))]
      rw [pbind_ok (assertChar_self '\t' _)]
      rw [pbind_ok (readEscapedString_escape (root ++ o.1) _ (stopEsc _))]
      rw [if_pos trivial, if_pos (isPrefixOf_append_self root o.1), List.drop_left]
      rw [pbind_ok (ppure_apply _ _)]
      rw [pbind_ok (assertChar_self '\n' _)]
      rw [pbind_ok (ih _ rest hsztl (.inl ⟨rfl, rfl⟩))]
      simp [ppure]
    · subst hv hs
      rw [renderObjects_cons, List.length_cons, readRemoteObjects]
      simp only [List.append_assoc, List.cons_append]
      rw [pbind_ok (readIntText_natToDec_lt _ _ _ hszhd
            (stop_of_head '\t' (by decide) (by decide) (by decide) _))]
      rw [pbind_ok (assertChar_self '\t' _)]
      rw [pbind_ok (readEscapedString_escape o.1 _ (stopEsc _))]
      rw [if_neg (by decide)]
      rw [pbind_ok (ppure_apply _ _)]
      rw [pbind_ok (assertChar_self '\n' _)]
      rw [pbind_ok (ih _ rest hsztl (.inr ⟨rfl, rfl⟩))]
      simp [ppure]

theorem parse_renderFile (root dp mfp : Str) (version : Nat)
    (stored objs : List (Str × Nat)) (total ref : Nat) (rest : Str)
    (hver : (version = VERSION_ABSOLUTE_PATHS ∧ stored = objs.map fun o => (root ++ o.1, o.2)) ∨
            (version = VERSION_RELATIVE_PATHS ∧ stored = objs))
    (htotal : total < SIZE_T_WIDTH) (href : ref < UINT32_WIDTH)
    (hlen : objs.length < UINT32_WIDTH)
    (hsz : ∀ o ∈ objs, o.2 < SIZE_T_WIDTH) :
    Metadata.parse root dp mfp (renderFile version stored total ref ++ rest) =
      .ok (⟨root, dp, mfp, total, objs, ref, false⟩, rest) := by
  have hv12 : version = 1 ∨ version = 2 := by
    rcases hver with ⟨hv, _⟩ | ⟨hv, _⟩
    · exact .inl hv
    · exact .inr hv
  have hlen2 : stored.length = objs.length := by
    rcases hver with ⟨_, hs⟩ | ⟨_, hs⟩ <;> subst hs <;> simp
  rw [renderFile, Metadata.parse]
  simp only [List.append_assoc, List.cons_append]
  rw [pbind_ok (readIntText_natToDec_lt _ _ _
        (by rcases hv12 with h | h <;> subst h <;> decide)
        (stop_of_head '\n' (by decide) (by decide) (by decide) _))]
  rw [pbind_ok (assertChar_self '\n' _)]
  rw [if_neg (by rcases hv12 with h | h <;> subst h <;> decide)]
  rw [pbind_ok (ppure_apply _ _)]
  rw [hlen2]
  rw [pbind_ok (readIntText_natToDec_lt _ _ _ hlen
        (stop_of_head '\t' (by decide) (by decide) (by decide) _))]
  rw [pbind_ok (assertChar_self '\t' _)]
  rw [pbind_ok (readIntText_natToDec_lt _ _ _ htotal
        (stop_of_head '\n' (by decide) (by decide) (by decide) _))]
  rw [pbind_ok (assertChar_self '\n' _)]
  rw [pbind_ok (readRemoteObjects_render root version stored objs _ hsz hver)]
  rw [pbind_ok (readIntText_natToDec_lt _ _ _ href
        (stop_of_head '\n' (by decide) (by decide) (by decide) _))]
  rw [pbind_ok (assertChar_self '\n' _)]
  rw [if_neg (by rcases hv12 with h | h <;> subst h <;> decide)]
  rw [pbind_ok (ppure_apply _ _)]
  rfl

theorem Metadata.load_save (root dp mfp : Str) (m : Metadata) (hvalid : m.Valid) :
    Metadata.load root dp mfp (Metadata.save m) =
      .ok ⟨root, dp, mfp, m.total_size, m.remote_fs_objects, m.ref_count, false⟩ := by
  obtain ⟨h1, h2, h3, h4⟩ := hvalid
  have hp := parse_renderFile root dp mfp VERSION_RELATIVE_PATHS
    m.remote_fs_objects m.remote_fs_objects m.total_size m.ref_count
    (writeBoolText m.read_only ++ ['\n']) (.inr ⟨rfl, rfl⟩) h1 h2 h3 h4
  rw [← save_eq_renderFile] at hp
  simp [Metadata.load, hp]

theorem Metadata.load_renderFile (root dp mfp : Str) (version : Nat)
    (stored objs : List (Str × Nat)) (total ref : Nat)
    (hver : (version = VERSION_ABSOLUTE_PATHS ∧ stored = objs.map fun o => (root ++ o.1, o.2)) ∨
            (version = VERSION_RELATIVE_PATHS ∧ stored = objs))
    (htotal : total < SIZE_T_WIDTH) (href : ref < UINT32_WIDTH)
    (hlen : objs.length < UINT32_WIDTH)
    (hsz : ∀ o ∈ objs, o.2 < SIZE_T_WIDTH) :
    Metadata.load root dp mfp (renderFile version stored total ref) =
      .ok ⟨root, dp, mfp, total, objs, ref, false⟩ := by
  have hp := parse_renderFile root dp mfp version stored objs total ref []
    hver htotal href hlen hsz
  rw [List.append_nil] at hp
  simp [Metadata.load, hp]

/-! ### Lemmas: association lists and the filesystem model -/

theorem lookupA_eraseA_self {κ α : Type} [DecidableEq κ] (l : List (κ × α)) (key : κ) :
    lookupA (eraseA l key) key = none := by
  induction l with
  | nil => rfl
  | cons e l ih =>
    obtain ⟨k, v⟩ := e
    by_cases h : k = key
    · simpa [eraseA, List.filter_cons, h] using ih
    · simpa [eraseA, List.filter_cons, lookupA, h] using ih

theorem lookupA_eraseA_ne {κ α : Type} [DecidableEq κ] (l : List (κ × α)) (key q : κ)
    (h : q ≠ key) : lookupA (eraseA l key) q = lookupA l q := by
  induction l with
  | nil => rfl
  | cons e l ih =>
    obtain ⟨k, v⟩ := e
    by_cases he : k = key
    · have hne : ¬(k = q) := fun hq => h (hq.symm.trans he)
      rw [show eraseA ((k, v) :: l) key = eraseA l key by
            simp [eraseA, List.filter_cons, he]]
      rw [ih, lookupA, if_neg hne]
    · rw [show eraseA ((k, v) :: l) key = (k, v) :: eraseA l key by
            simp [eraseA, List.filter_cons, he]]
      rw [lookupA, lookupA]
      by_cases heq : k = q
      · rw [if_pos heq, if_pos heq]
      · rw [if_neg heq, if_neg heq, ih]

theorem lookupA_setA_self {κ α : Type} [DecidableEq κ] (l : List (κ × α)) (key : κ) (val : α)
    (h : (lookupA l key).isSome = true) :
    lookupA (setA l key val) key = some val := by
  induction l with
  | nil => simp [lookupA] at h
  | cons e l ih =>
    obtain ⟨k, v⟩ := e
    by_cases he : k = key
    · simp [setA, he, lookupA]
    · simp [setA, he, lookupA] at h ⊢
      exact ih h

theorem readMeta_ok_elim (disk : IDiskRemote) (fs : FS) (path : Str) (m : Metadata)
    (h : disk.readMeta fs path = .ok m) :
    ∃ ino contents, lookupA fs.links (disk.metadata_path ++ path) = some ino ∧
      lookupA fs.inodes ino = some contents ∧
      Metadata.load disk.remote_fs_root_path disk.metadata_path path contents = .ok m := by
  unfold IDiskRemote.readMeta at h
  cases hrf : fs.readFile (disk.metadata_path ++ path) with
  | none =>
    rw [hrf] at h
    cases (show (Except.error ErrorCode.UNKNOWN_FORMAT : Except ErrorCode Metadata)
        = .ok m from h)
  | some contents =>
    rw [hrf] at h
    have h2 : Metadata.load disk.remote_fs_root_path disk.metadata_path path contents
        = .ok m := h
    unfold FS.readFile at hrf
    cases hl : lookupA fs.links (disk.metadata_path ++ path) with
    | none =>
      rw [hl] at hrf
      cases (show (none : Option Str) = some contents from hrf)
    | some ino =>
      rw [hl] at hrf
      have h3 : lookupA fs.inodes ino = some contents := hrf
      exact ⟨ino, contents, rfl, h3, h2⟩

theorem removeMeta_ok_behavior (disk : IDiskRemote) (fs : FS) (path : Str) (keep : Bool)
    (m : Metadata) (hload : disk.readMeta fs path = .ok m)
    (hremote : disk.remote_delete_result = none) :
    ∃ fs2, disk.removeMeta fs path keep = .ok fs2 ∧
      lookupA fs2.links (disk.metadata_path ++ path) = none ∧
      fs2.warnings = fs.warnings ∧
      (m.ref_count = 0 →
        fs2.inodes = fs.inodes ∧
        fs2.removedRemote = fs.removedRemote ++
          (if keep then [] else m.remote_fs_objects.map Prod.fst)) ∧
      (m.ref_count ≠ 0 →
        fs2.removedRemote = fs.removedRemote ∧
        ∃ ino, lookupA fs.links (disk.metadata_path ++ path) = some ino ∧
          lookupA fs2.inodes ino =
            some (Metadata.save { m with ref_count := m.ref_count - 1 })) := by
  obtain ⟨ino, contents, hl, hc, hload2⟩ := readMeta_ok_elim disk fs path m hload
  have hisfile : fs.isFile (disk.metadata_path ++ path) = true := by
    simp [FS.isFile, hl]
  by_cases h0 : m.ref_count = 0
  · cases keep with
    | true =>
      have htry : disk.removeMetaTry fs path true =
          .ok (fs.removeLink (disk.metadata_path ++ path)) := by
        rw [IDiskRemote.removeMetaTry, hload]
        simp [h0]
      rw [IDiskRemote.removeMeta, if_neg (by simp [hisfile]), htry]
      exact ⟨_, rfl, lookupA_eraseA_self _ _, rfl,
        fun _ => ⟨rfl, by simp [FS.removeLink]⟩, fun hne => absurd h0 hne⟩
    | false =>
      have htry : disk.removeMetaTry fs path false =
          .ok { fs.removeLink (disk.metadata_path ++ path) with
                removedRemote := fs.removedRemote ++ m.remote_fs_objects.map Prod.fst } := by
        rw [IDiskRemote.removeMetaTry, hload]
        simp [h0, IDiskRemote.removeFromRemoteFS, hremote]
        rfl
      rw [IDiskRemote.removeMeta, if_neg (by simp [hisfile]), htry]
      exact ⟨_, rfl, lookupA_eraseA_self _ _, rfl,
        fun _ => ⟨rfl, by simp⟩, fun hne => absurd h0 hne⟩
  · have htry : disk.removeMetaTry fs path keep =
        .ok ((fs.writeFile (disk.metadata_path ++ path)
              (Metadata.save { m with ref_count := m.ref_count - 1 })).removeLink
            (disk.metadata_path ++ path)) := by
      rw [IDiskRemote.removeMetaTry, hload]
      simp [h0]
    have hwf : fs.writeFile (disk.metadata_path ++ path)
          (Metadata.save { m with ref_count := m.ref_count - 1 })
        = { fs with inodes := (setA fs.inodes ino (Metadata.save { m with ref_count := m.ref_count - 1 })) } := by
      rw [FS.writeFile, hl]
    rw [IDiskRemote.removeMeta, if_neg (by simp [hisfile]), htry, hwf]
    refine ⟨_, rfl, lookupA_eraseA_self _ _, rfl, fun h => absurd h h0, fun _ =>
      ⟨rfl, ino, hl, lookupA_setA_self _ _ _ (by simp [hc])⟩⟩

/-! ### Small step lemmas for composing filesystem operations -/

theorem readMeta_eq (disk : IDiskRemote) (fs : FS) (path : Str) (ino : Nat) (contents : Str)
    (hl : lookupA fs.links (disk.metadata_path ++ path) = some ino)
    (hc : lookupA fs.inodes ino = some contents) :
    disk.readMeta fs path =
      Metadata.load disk.remote_fs_root_path disk.metadata_path path contents := by
  have hrf : fs.readFile (disk.metadata_path ++ path) = some contents := by
    rw [FS.readFile, hl]
    exact hc
  rw [IDiskRemote.readMeta, hrf]

theorem removeMeta_try_ok (disk : IDiskRemote) (fs : FS) (path : Str) (keep : Bool) (fs2 : FS)
    (hfile : fs.isFile (disk.metadata_path ++ path) = true)
    (htry : disk.removeMetaTry fs path keep = .ok fs2) :
    disk.removeMeta fs path keep = .ok fs2 := by
  rw [IDiskRemote.removeMeta, if_neg (by simp [hfile]), htry]

theorem createHardLink_ok (disk : IDiskRemote) (fs : FS) (src_path dst_path : Str) (m : Metadata)
    (hload : disk.readMeta fs src_path = .ok m) :
    disk.createHardLink fs src_path dst_path =
      createHardLinkFS
        (fs.writeFile (disk.metadata_path ++ src_path)
          (Metadata.save { m with ref_count := (m.ref_count + 1) % UINT32_WIDTH }))
        (disk.metadata_path ++ src_path) (disk.metadata_path ++ dst_path) := by
  rw [IDiskRemote.createHardLink, hload]

/-! ### Concrete fixtures used by the witnesses -/

def wroot : Str := ['r', '/']

def wmp : Str := ['m', '/']

def wdisk : IDiskRemote :=
  { remote_fs_root_path := wroot, metadata_path := wmp, remote_delete_result := none,
    dirs := fun _ => [] }

def wm0 : Metadata :=
  { remote_fs_root_path := wroot, disk_path := wmp, metadata_file_path := ['a'],
    total_size := 3, remote_fs_objects := [(['o'], 3)], ref_count := 0, read_only := false }

def wfs0 : FS :=
  { links := [(wmp ++ ['a'], 0)], inodes := [(0, Metadata.save wm0)], nextInode := 1,
    dirPaths := [], removedRemote := [], warnings := 0 }

/-! ### Claim theorems -/

/-- C2: for every local path whose metadata record loads successfully,
`removeMeta` (the spec's `RemoveFile(path, keep_remote_data)`) behaves as
decrement-or-delete.  At `ref_count = 0` it deletes the local record file
(the directory entry is gone) and, when `keep_remote_data` is false, issues
one remote delete per listed remote object in record order, issuing none when
it is true.  At `ref_count = k > 0` it persists the record with
`ref_count = k - 1` through the record file's inode, deletes the local
directory entry, and issues no remote deletes. -/
theorem removeFile_decrement_or_delete (disk : IDiskRemote) (fs : FS) (path : Str)
    (keep : Bool) (m : Metadata) (hload : disk.readMeta fs path = .ok m)
    (hremote : disk.remote_delete_result = none) :
    ∃ fs2, disk.removeMeta fs path keep = .ok fs2 ∧
      lookupA fs2.links (disk.metadata_path ++ path) = none ∧
      fs2.warnings = fs.warnings ∧
      (m.ref_count = 0 →
        fs2.inodes = fs.inodes ∧
        fs2.removedRemote = fs.removedRemote ++
          (if keep then [] else m.remote_fs_objects.map Prod.fst)) ∧
      (m.ref_count ≠ 0 →
        fs2.removedRemote = fs.removedRemote ∧
        ∃ ino, lookupA fs.links (disk.metadata_path ++ path) = some ino ∧
          lookupA fs2.inodes ino =
            some (Metadata.save { m with ref_count := m.ref_count - 1 })) :=
  removeMeta_ok_behavior disk fs path keep m hload hremote

theorem removeFile_decrement_or_delete_witness :
    (wdisk.readMeta wfs0 ['a'] = .ok wm0 ∧ wdisk.remote_delete_result = none) ∧
    (∃ fs2, wdisk.removeMeta wfs0 ['a'] false = .ok fs2 ∧
      lookupA fs2.links (wdisk.metadata_path ++ ['a']) = none ∧
      fs2.warnings = wfs0.warnings ∧
      (wm0.ref_count = 0 →
        fs2.inodes = wfs0.inodes ∧
        fs2.removedRemote = wfs0.removedRemote ++
          (if false then [] else wm0.remote_fs_objects.map Prod.fst)) ∧
      (wm0.ref_count ≠ 0 →
        fs2.removedRemote = wfs0.removedRemote ∧
        ∃ ino, lookupA wfs0.links (wdisk.metadata_path ++ ['a']) = some ino ∧
          lookupA fs2.inodes ino =
            some (Metadata.save { wm0 with ref_count := wm0.ref_count - 1 }))) :=
  ⟨⟨by decide, rfl⟩,
    removeFile_decrement_or_delete wdisk wfs0 ['a'] false wm0 (by decide) rfl⟩

/-- C3: `tryReserve 0` always succeeds, incrementing `reservation_count` and
leaving `reserved_bytes` unchanged; for `bytes > 0`, `tryReserve bytes`
succeeds — incrementing `reservation_count` and adding `bytes` to
`reserved_bytes` — if and only if
`available_space - min available_space reserved_bytes ≥ bytes`, and on
failure leaves both counters unchanged. -/
theorem tryReserve_spec (available_space : Nat) (st : ReservationLedger) (bytes : Nat) :
    tryReserve available_space st 0 =
      (true, { st with reservation_count := st.reservation_count + 1 }) ∧
    (0 < bytes →
      ((tryReserve available_space st bytes).1 = true ↔
        bytes ≤ available_space - min available_space st.reserved_bytes) ∧
      (bytes ≤ available_space - min available_space st.reserved_bytes →
        tryReserve available_space st bytes =
          (true, { reserved_bytes := st.reserved_bytes + bytes,
                   reservation_count := st.reservation_count + 1 })) ∧
      (¬bytes ≤ available_space - min available_space st.reserved_bytes →
        tryReserve available_space st bytes = (false, st))) := by
  refine ⟨by rw [tryReserve, if_pos rfl], fun hb => ⟨?_, fun h => ?_, fun h => ?_⟩⟩
  · by_cases h : bytes ≤ available_space - min available_space st.reserved_bytes
    · simp [tryReserve, h, Nat.pos_iff_ne_zero.mp hb]
    · simp [tryReserve, h, Nat.pos_iff_ne_zero.mp hb]
  · simp [tryReserve, h, Nat.pos_iff_ne_zero.mp hb]
  · simp [tryReserve, h, Nat.pos_iff_ne_zero.mp hb]

theorem tryReserve_spec_witness :
    tryReserve 100 ⟨30, 2⟩ 0 = (true, ⟨30, 3⟩) ∧
    tryReserve 100 ⟨30, 2⟩ 50 = (true, ⟨80, 3⟩) ∧
    tryReserve 100 ⟨30, 2⟩ 71 = (false, ⟨30, 2⟩) :=
  ⟨(tryReserve_spec 100 ⟨30, 2⟩ 0).1,
    ((tryReserve_spec 100 ⟨30, 2⟩ 50).2 (by decide)).2.1 (by decide),
    ((tryReserve_spec 100 ⟨30, 2⟩ 71).2 (by decide)).2.2 (by decide)⟩

/-- C6: releasing (destroying) a reservation of size `S` never fails: it
decrements `reserved_bytes` by exactly `S` unless `reserved_bytes < S`, in
which case `reserved_bytes` is clamped to zero and the inconsistency is
logged; it decrements `reservation_count` by one unless it is already zero,
in which case it stays zero and an error is logged.  Neither counter ever
goes below zero (they are naturals, and the clamped branches return `0`). -/
theorem reservationDestroy_spec (st : ReservationLedger) (size : Nat) :
    (reservationDestroy st size).1.reserved_bytes =
      (if st.reserved_bytes < size then 0 else st.reserved_bytes - size) ∧
    (reservationDestroy st size).1.reservation_count =
      (if st.reservation_count = 0 then 0 else st.reservation_count - 1) ∧
    ((reservationDestroy st size).2.1 = true ↔ st.reserved_bytes < size) ∧
    ((reservationDestroy st size).2.2 = true ↔ st.reservation_count = 0) := by
  by_cases h1 : st.reserved_bytes < size <;> by_cases h2 : st.reservation_count = 0 <;>
    simp [reservationDestroy, h1, h2]

/-- C8: starting from a record created empty in create mode, any sequence of
`addObject path size` calls leaves `total_size` equal to the sum of the
appended sizes (no overflow occurring) and `remote_fs_objects` equal to
exactly the appended (path, size) pairs in append order, without
deduplication. -/
theorem addObject_foldl (objs : List (Str × Nat)) :
    ∀ m : Metadata, m.total_size + (objs.map Prod.snd).sum < SIZE_T_WIDTH →
      (objs.foldl (fun acc o => acc.addObject o.1 o.2) m).total_size
          = m.total_size + (objs.map Prod.snd).sum ∧
      (objs.foldl (fun acc o => acc.addObject o.1 o.2) m).remote_fs_objects
          = m.remote_fs_objects ++ objs := by
  induction objs with
  | nil => intro m h; simp
  | cons o objs ih =>
    intro m h
    simp only [List.map_cons, List.sum_cons] at h
    have hsize : m.total_size + o.2 < SIZE_T_WIDTH := by omega
    have hm : (m.addObject o.1 o.2).total_size = m.total_size + o.2 := by
      simp [Metadata.addObject, Nat.mod_eq_of_lt hsize]
    obtain ⟨h1, h2⟩ := ih (m.addObject o.1 o.2) (by rw [hm]; omega)
    constructor
    · rw [List.foldl_cons, h1, hm]
      simp only [List.map_cons, List.sum_cons]
      omega
    · rw [List.foldl_cons, h2]
      simp [Metadata.addObject]

theorem addObject_total_size_spec (root dp mfp : Str) (objs : List (Str × Nat))
    (hsum : (objs.map Prod.snd).sum < SIZE_T_WIDTH) :
    (objs.foldl (fun acc o => acc.addObject o.1 o.2) (Metadata.create root dp mfp)).total_size
        = (objs.map Prod.snd).sum ∧
    (objs.foldl (fun acc o => acc.addObject o.1 o.2) (Metadata.create root dp mfp)).remote_fs_objects
        = objs := by
  obtain ⟨h1, h2⟩ := addObject_foldl objs (Metadata.create root dp mfp)
    (by simpa [Metadata.create] using hsum)
  constructor
  · simpa [Metadata.create] using h1
  · simpa [Metadata.create] using h2

theorem addObject_total_size_spec_witness :
    ((([(['a'], 2), (['b'], 5), (['a'], 2)] : List (Str × Nat)).map Prod.snd).sum < SIZE_T_WIDTH) ∧
    (([(['a'], 2), (['b'], 5), (['a'], 2)] : List (Str × Nat)).foldl
        (fun acc o => acc.addObject o.1 o.2) (Metadata.create wroot wmp ['a'])).total_size = 9 ∧
    (([(['a'], 2), (['b'], 5), (['a'], 2)] : List (Str × Nat)).foldl
        (fun acc o => acc.addObject o.1 o.2) (Metadata.create wroot wmp ['a'])).remote_fs_objects
      = [(['a'], 2), (['b'], 5), (['a'], 2)] :=
  ⟨by decide,
    (addObject_total_size_spec wroot wmp ['a'] [(['a'], 2), (['b'], 5), (['a'], 2)] (by decide)).1,
    (addObject_total_size_spec wroot wmp ['a'] [(['a'], 2), (['b'], 5), (['a'], 2)] (by decide)).2⟩

/-- C10: `removeFileIfExists` on a path with no local entry returns normally
and changes nothing; on an existing entry it is exactly `removeMeta` with
`keep_in_remote_fs = false` — in particular, when the record loads with
`ref_count = 0` and the remote client is healthy, the local record is deleted
and every listed remote object is deleted remotely. -/
theorem removeFileIfExists_spec (disk : IDiskRemote) (fs : FS) (path : Str) :
    (fs.pathExists (disk.metadata_path ++ path) = false →
      disk.removeFileIfExists fs path = .ok fs) ∧
    (fs.pathExists (disk.metadata_path ++ path) = true →
      disk.removeFileIfExists fs path = disk.removeMeta fs path false) ∧
    (∀ m, disk.readMeta fs path = .ok m → m.ref_count = 0 →
      disk.remote_delete_result = none →
      ∃ fs2, disk.removeFileIfExists fs path = .ok fs2 ∧
        lookupA fs2.links (disk.metadata_path ++ path) = none ∧
        fs2.removedRemote = fs.removedRemote ++ m.remote_fs_objects.map Prod.fst) := by
  refine ⟨fun h => ?_, fun h => ?_, fun m hm h0 hr => ?_⟩
  · rw [IDiskRemote.removeFileIfExists, if_neg (by simp [h])]
  · rw [IDiskRemote.removeFileIfExists, if_pos h]
  · obtain ⟨ino, contents, hl, hc, _⟩ := readMeta_ok_elim disk fs path m hm
    have hex : fs.pathExists (disk.metadata_path ++ path) = true := by
      simp [FS.pathExists, FS.isFile, hl]
    obtain ⟨fs2, hrm, hlinks, hw, hzero, _⟩ := removeMeta_ok_behavior disk fs path false m hm hr
    obtain ⟨hino, hrem⟩ := hzero h0
    exact ⟨fs2, by rw [IDiskRemote.removeFileIfExists, if_pos hex, hrm], hlinks,
      by simpa using hrem⟩

theorem removeFileIfExists_spec_witness :
    (wfs0.pathExists (wdisk.metadata_path ++ ['z']) = false ∧
      wdisk.removeFileIfExists wfs0 ['z'] = .ok wfs0) ∧
    (wdisk.readMeta wfs0 ['a'] = .ok wm0 ∧
      ∃ fs2, wdisk.removeFileIfExists wfs0 ['a'] = .ok fs2 ∧
        lookupA fs2.links (wdisk.metadata_path ++ ['a']) = none ∧
        fs2.removedRemote = wfs0.removedRemote ++ wm0.remote_fs_objects.map Prod.fst) :=
  ⟨⟨by decide, (removeFileIfExists_spec wdisk wfs0 ['z']).1 (by decide)⟩,
    ⟨by decide, (removeFileIfExists_spec wdisk wfs0 ['a']).2.2 wm0 (by decide) (by decide) rfl⟩⟩

/-- The C1 failing input: a valid in-memory record whose read-only flag is
set (as `setReadOnly` produces before saving). -/
def c1m : Metadata :=
  { remote_fs_root_path := wroot, disk_path := wmp, metadata_file_path := ['a'],
    total_size := 3, remote_fs_objects := [(['o'], 3)], ref_count := 0, read_only := true }

/-- C1 (evaluating the code at the failing input): a record with
`read_only = true` does not round-trip through `save` then load.  `save`
stamps `VERSION_RELATIVE_PATHS` (2) on the file while still writing the
read-only line, and the parser only reads the read-only line for versions
at least `VERSION_READ_ONLY_FLAG` (3), so the reloaded record has
`read_only = false` and the written version is not the latest supported
version. -/
theorem save_load_read_only_bug :
    c1m.read_only = true ∧
    Metadata.load wroot wmp ['a'] (Metadata.save c1m) = .ok { c1m with read_only := false } ∧
    ({ c1m with read_only := false } : Metadata) ≠ c1m ∧
    (Metadata.save c1m).take 2 = natToDec VERSION_RELATIVE_PATHS ++ ['\n'] ∧
    VERSION_RELATIVE_PATHS ≠ VERSION_READ_ONLY_FLAG :=
  ⟨rfl, by decide, by decide, by decide, by decide⟩

/-! ### Exact state equations for the removal paths -/

theorem createHardLinkFS_ok (fs : FS) (src dst : Str) (ino : Nat)
    (hsrc : lookupA fs.links src = some ino) (hdst : lookupA fs.links dst = none) :
    createHardLinkFS fs src dst = .ok { fs with links := (dst, ino) :: fs.links } := by
  simp [createHardLinkFS, hsrc, hdst]

theorem removeMeta_pos_eq (disk : IDiskRemote) (fs : FS) (path : Str) (keep : Bool)
    (m : Metadata) (ino : Nat)
    (hl : lookupA fs.links (disk.metadata_path ++ path) = some ino)
    (hload : disk.readMeta fs path = .ok m)
    (h0 : m.ref_count ≠ 0) :
    disk.removeMeta fs path keep =
      .ok { fs with links := eraseA fs.links (disk.metadata_path ++ path)
                    inodes := (setA fs.inodes ino (Metadata.save { m with ref_count := m.ref_count - 1 })) } := by
  have hisfile : fs.isFile (disk.metadata_path ++ path) = true := by simp [FS.isFile, hl]
  have hwf : fs.writeFile (disk.metadata_path ++ path)
        (Metadata.save { m with ref_count := m.ref_count - 1 })
      = { fs with inodes := (setA fs.inodes ino (Metadata.save { m with ref_count := m.ref_count - 1 })) } := by
    rw [FS.writeFile, hl]
  have htry : disk.removeMetaTry fs path keep =
      .ok { fs with links := eraseA fs.links (disk.metadata_path ++ path)
                    inodes := (setA fs.inodes ino (Metadata.save { m with ref_count := m.ref_count - 1 })) } := by
    rw [IDiskRemote.removeMetaTry, hload]
    show (if m.ref_count = 0 then
        (if keep then Except.ok (fs.removeLink (disk.metadata_path ++ path))
         else disk.removeFromRemoteFS (fs.removeLink (disk.metadata_path ++ path)) m)
      else Except.ok ((fs.writeFile (disk.metadata_path ++ path)
          (Metadata.save { m with ref_count := m.ref_count - 1 })).removeLink
          (disk.metadata_path ++ path))) = _
    rw [if_neg h0, hwf]
    rfl
  exact removeMeta_try_ok disk fs path keep _ hisfile htry

theorem removeMeta_zero_eq (disk : IDiskRemote) (fs : FS) (path : Str)
    (m : Metadata) (ino : Nat)
    (hl : lookupA fs.links (disk.metadata_path ++ path) = some ino)
    (hload : disk.readMeta fs path = .ok m)
    (h0 : m.ref_count = 0) (hremote : disk.remote_delete_result = none) :
    disk.removeMeta fs path false =
      .ok { fs with links := eraseA fs.links (disk.metadata_path ++ path)
                    removedRemote := fs.removedRemote ++ m.remote_fs_objects.map Prod.fst } := by
  have hisfile : fs.isFile (disk.metadata_path ++ path) = true := by simp [FS.isFile, hl]
  have htry : disk.removeMetaTry fs path false =
      .ok { fs with links := eraseA fs.links (disk.metadata_path ++ path)
                    removedRemote := fs.removedRemote ++ m.remote_fs_objects.map Prod.fst } := by
    rw [IDiskRemote.removeMetaTry, hload]
    show (if m.ref_count = 0 then
        (if false then Except.ok (fs.removeLink (disk.metadata_path ++ path))
         else disk.removeFromRemoteFS (fs.removeLink (disk.metadata_path ++ path)) m)
      else Except.ok ((fs.writeFile (disk.metadata_path ++ path)
          (Metadata.save { m with ref_count := m.ref_count - 1 })).removeLink
          (disk.metadata_path ++ path))) = _
    rw [if_pos h0, if_neg (by simp), IDiskRemote.removeFromRemoteFS, hremote]
    rfl
  exact removeMeta_try_ok disk fs path false _ hisfile htry

/-! ### Remaining claim theorems -/

/-- C5: a metadata file whose version is outside the supported range fails to
load with the `UNKNOWN_FORMAT` error; every other load failure is wrapped into
the same `UNKNOWN_FORMAT` category; a file whose load fails with that error,
passed to `removeMeta`, does not raise: a warning is logged and the local
record file is force-deleted; and an error during removal that is not
`UNKNOWN_FORMAT` (here a remote-store failure while purging) propagates to
the caller. -/
theorem corrupt_metadata_handling_spec (disk : IDiskRemote) :
    (∀ root dp mfp v rest, (v < VERSION_ABSOLUTE_PATHS ∨ VERSION_READ_ONLY_FLAG < v) →
      v < UINT32_WIDTH →
      Metadata.load root dp mfp (natToDec v ++ '\n' :: rest) = .error .UNKNOWN_FORMAT) ∧
    (∀ root dp mfp contents e, Metadata.load root dp mfp contents = .error e →
      e = .UNKNOWN_FORMAT) ∧
    (∀ fs path keep ino contents,
      lookupA fs.links (disk.metadata_path ++ path) = some ino →
      lookupA fs.inodes ino = some contents →
      Metadata.load disk.remote_fs_root_path disk.metadata_path path contents
        = .error .UNKNOWN_FORMAT →
      disk.removeMeta fs path keep =
        .ok { fs.removeLink (disk.metadata_path ++ path) with warnings := fs.warnings + 1 }) ∧
    (∀ fs path m e, disk.readMeta fs path = .ok m → m.ref_count = 0 →
      disk.remote_delete_result = some e → e ≠ .UNKNOWN_FORMAT →
      disk.removeMeta fs path false = .error e) := by
  refine ⟨fun root dp mfp v rest hv hvw => ?_, fun root dp mfp contents e h => ?_,
    fun fs path keep ino contents hl hc hload => ?_, fun fs path m e hm h0 hrd hne => ?_⟩
  · have hparse : Metadata.parse root dp mfp (natToDec v ++ '\n' :: rest)
        = .error .UNKNOWN_FORMAT := by
      rw [Metadata.parse]
      rw [pbind_ok (readIntText_natToDec_lt _ _ _ hvw
            (stop_of_head '\n' (by decide) (by decide) (by decide) _))]
      rw [pbind_ok (assertChar_self '\n' _)]
      rw [if_pos hv]
      exact pbind_error (pthrow_apply _ _)
    simp [Metadata.load, hparse]
  · cases hp : Metadata.parse root dp mfp contents with
    | ok x => simp [Metadata.load, hp] at h
    | error e2 =>
      simp [Metadata.load, hp] at h
      exact h.symm
  · have hisfile : fs.isFile (disk.metadata_path ++ path) = true := by simp [FS.isFile, hl]
    have hread : disk.readMeta fs path = .error .UNKNOWN_FORMAT := by
      rw [readMeta_eq disk fs path ino contents hl hc, hload]
    have htry : disk.removeMetaTry fs path keep = .error .UNKNOWN_FORMAT := by
      rw [IDiskRemote.removeMetaTry, hread]
    rw [IDiskRemote.removeMeta, if_neg (by simp [hisfile]), htry]
    rfl
  · obtain ⟨ino, contents, hl, hc, hload2⟩ := readMeta_ok_elim disk fs path m hm
    have hisfile : fs.isFile (disk.metadata_path ++ path) = true := by simp [FS.isFile, hl]
    have htry : disk.removeMetaTry fs path false = .error e := by
      rw [IDiskRemote.removeMetaTry, hm]
      show (if m.ref_count = 0 then
          (if false then Except.ok (fs.removeLink (disk.metadata_path ++ path))
           else disk.removeFromRemoteFS (fs.removeLink (disk.metadata_path ++ path)) m)
        else Except.ok ((fs.writeFile (disk.metadata_path ++ path)
            (Metadata.save { m with ref_count := m.ref_count - 1 })).removeLink
            (disk.metadata_path ++ path))) = _
      rw [if_pos h0, if_neg (by simp), IDiskRemote.removeFromRemoteFS, hrd]
    rw [IDiskRemote.removeMeta, if_neg (by simp [hisfile]), htry]
    simp [hne]

def wdiskR : IDiskRemote :=
  { remote_fs_root_path := wroot, metadata_path := wmp,
    remote_delete_result := some .REMOTE_FS_ERROR, dirs := fun _ => [] }

def wfsC : FS :=
  { links := [(wmp ++ ['c'], 0)], inodes := [(0, ['9', '\n'])], nextInode := 1,
    dirPaths := [], removedRemote := [], warnings := 0 }

theorem corrupt_metadata_handling_spec_witness :
    Metadata.load wroot wmp ['c'] (natToDec 9 ++ '\n' :: []) = .error .UNKNOWN_FORMAT ∧
    ErrorCode.UNKNOWN_FORMAT = .UNKNOWN_FORMAT ∧
    wdiskR.removeMeta wfsC ['c'] true =
      .ok { wfsC.removeLink (wdiskR.metadata_path ++ ['c']) with warnings := wfsC.warnings + 1 } ∧
    wdiskR.removeMeta wfs0 ['a'] false = .error .REMOTE_FS_ERROR :=
  ⟨(corrupt_metadata_handling_spec wdiskR).1 wroot wmp ['c'] 9 [] (by decide) (by decide),
    (corrupt_metadata_handling_spec wdiskR).2.1 wroot wmp ['c'] [] .UNKNOWN_FORMAT (by decide),
    (corrupt_metadata_handling_spec wdiskR).2.2.1 wfsC ['c'] true 0 ['9', '\n']
      (by decide) (by decide) (by decide),
    (corrupt_metadata_handling_spec wdiskR).2.2.2 wfs0 ['a'] wm0 .REMOTE_FS_ERROR
      (by decide) (by decide) rfl (by decide)⟩

theorem renderObjects_nil : renderObjects [] = [] := rfl

theorem readRemoteObjects_badPrefix (root p : Str) (size n : Nat)
    (objs : List (Str × Nat)) (rest : Str)
    (hpre : root.isPrefixOf p = false) :
    readRemoteObjects root VERSION_ABSOLUTE_PATHS (n + 1)
        (renderObjects ((p, size) :: objs) ++ rest) = .error .UNKNOWN_FORMAT := by
  rw [renderObjects_cons, readRemoteObjects]
  simp only [List.append_assoc, List.cons_append]
  rw [pbind_ok (readIntText_natToDec SIZE_T_WIDTH size _ (by decide)
        (stop_of_head '\t' (by decide) (by decide) (by decide) _))]
  rw [pbind_ok (assertChar_self '\t' _)]
  rw [pbind_ok (readEscapedString_escape p _ (stopEsc _))]
  rw [if_pos (by trivial), if_neg (by simp [hpre])]
  rw [pbind_error (pthrow_apply _ _)]

theorem parse_renderFile_badPrefix (root dp mfp p : Str) (size total ref : Nat)
    (hpre : root.isPrefixOf p = false) :
    Metadata.load root dp mfp (renderFile VERSION_ABSOLUTE_PATHS [(p, size)] total ref)
      = .error .UNKNOWN_FORMAT := by
  have hparse :
      Metadata.parse root dp mfp (renderFile VERSION_ABSOLUTE_PATHS [(p, size)] total ref)
        = .error .UNKNOWN_FORMAT := by
    rw [renderFile, Metadata.parse]
    simp only [List.append_assoc, List.cons_append]
    rw [pbind_ok (readIntText_natToDec_lt _ _ _ (by decide)
          (stop_of_head '\n' (by decide) (by decide) (by decide) _))]
    rw [pbind_ok (assertChar_self '\n' _)]
    rw [if_neg (by decide)]
    rw [pbind_ok (ppure_apply _ _)]
    rw [List.length_cons]
    rw [pbind_ok (readIntText_natToDec_lt _ _ _ (by decide)
          (stop_of_head '\t' (by decide) (by decide) (by decide) _))]
    rw [pbind_ok (assertChar_self '\t' _)]
    rw [pbind_ok (readIntText_natToDec SIZE_T_WIDTH total _ (by decide)
          (stop_of_head '\n' (by decide) (by decide) (by decide) _))]
    rw [pbind_ok (assertChar_self '\n' _)]
    rw [pbind_error (readRemoteObjects_badPrefix root p size _ [] _ hpre)]
  simp [Metadata.load, hparse]

/-- C7: under the legacy absolute-paths version, a stored object path that
does not start with `remote_fs_root_path` makes the load fail with the
`UNKNOWN_FORMAT` error, and a stored path that does start with it has the
prefix stripped, so the loaded record equals the one loaded from the
equivalent relative-paths-version file and re-saves to identical bytes. -/
theorem absolute_paths_legacy_spec (root dp mfp : Str) :
    (∀ p size total ref, root.isPrefixOf p = false →
      Metadata.load root dp mfp (renderFile VERSION_ABSOLUTE_PATHS [(p, size)] total ref)
        = .error .UNKNOWN_FORMAT) ∧
    (∀ objs total ref, total < SIZE_T_WIDTH → ref < UINT32_WIDTH →
      objs.length < UINT32_WIDTH → (∀ o ∈ objs, o.2 < SIZE_T_WIDTH) →
      Metadata.load root dp mfp
          (renderFile VERSION_ABSOLUTE_PATHS (objs.map fun o => (root ++ o.1, o.2)) total ref)
        = .ok ⟨root, dp, mfp, total, objs, ref, false⟩ ∧
      Metadata.load root dp mfp
          (renderFile VERSION_ABSOLUTE_PATHS (objs.map fun o => (root ++ o.1, o.2)) total ref)
        = Metadata.load root dp mfp (renderFile VERSION_RELATIVE_PATHS objs total ref) ∧
      (∀ m1 m2,
        Metadata.load root dp mfp
            (renderFile VERSION_ABSOLUTE_PATHS (objs.map fun o => (root ++ o.1, o.2)) total ref)
          = .ok m1 →
        Metadata.load root dp mfp (renderFile VERSION_RELATIVE_PATHS objs total ref)
          = .ok m2 →
        Metadata.save m1 = Metadata.save m2)) := by
  constructor
  · exact fun p size total ref hpre => parse_renderFile_badPrefix root dp mfp p size total ref hpre
  · intro objs total ref h1 h2 h3 h4
    have hv1 := Metadata.load_renderFile root dp mfp VERSION_ABSOLUTE_PATHS
      (objs.map fun o => (root ++ o.1, o.2)) objs total ref (.inl ⟨rfl, rfl⟩) h1 h2 h3 h4
    have hv2 := Metadata.load_renderFile root dp mfp VERSION_RELATIVE_PATHS
      objs objs total ref (.inr ⟨rfl, rfl⟩) h1 h2 h3 h4
    refine ⟨hv1, hv1.trans hv2.symm, fun m1 m2 hm1 hm2 => ?_⟩
    rw [hv1] at hm1
    rw [hv2] at hm2
    obtain rfl : (⟨root, dp, mfp, total, objs, ref, false⟩ : Metadata) = m1 := Except.ok.inj hm1
    obtain rfl : (⟨root, dp, mfp, total, objs, ref, false⟩ : Metadata) = m2 := Except.ok.inj hm2
    rfl

theorem absolute_paths_legacy_spec_witness :
    (wroot.isPrefixOf ['x'] = false ∧
      Metadata.load wroot wmp ['a'] (renderFile VERSION_ABSOLUTE_PATHS [(['x'], 3)] 3 0)
        = .error .UNKNOWN_FORMAT) ∧
    Metadata.load wroot wmp ['a'] (renderFile VERSION_ABSOLUTE_PATHS [(wroot ++ ['o'], 3)] 3 0)
      = .ok ⟨wroot, wmp, ['a'], 3, [(['o'], 3)], 0, false⟩ :=
  ⟨⟨by decide, (absolute_paths_legacy_spec wroot wmp ['a']).1 ['x'] 3 3 0 (by decide)⟩,
    ((absolute_paths_legacy_spec wroot wmp ['a']).2 [(['o'], 3)] 3 0
      (by decide) (by decide) (by decide) (by decide)).1⟩

/-- C9: on a directory tree containing a cycle through symbolic links (a
family `S` of non-file paths each of whose directory listing begins with
another member of `S`), `removeRecursive` fails fast with the stack-check
error `TOO_DEEP_RECURSION` for every stack budget, instead of recursing
forever: the explicit stack-size check performed on entry at every recursive
step throws once the budget is exhausted. -/
theorem removeRecursive_cyclic_spec (disk : IDiskRemote) (fs : FS) (S : List Str) (p : Str)
    (hp : p ∈ S)
    (hdir : ∀ q ∈ S, fs.isFile (disk.metadata_path ++ q) = false)
    (hcyc : ∀ q ∈ S, ∃ c rest, disk.dirs q = c :: rest ∧ c ∈ S) :
    ∀ fuel, disk.removeRecursive fuel fs p = .error .TOO_DEEP_RECURSION := by
  have main : ∀ fuel q, q ∈ S →
      disk.removeRecursive fuel fs q = .error .TOO_DEEP_RECURSION := by
    intro fuel
    induction fuel with
    | zero => intro q hq; rfl
    | succ fuel ih =>
      intro q hq
      obtain ⟨c, rest, hd, hcS⟩ := hcyc q hq
      rw [IDiskRemote.removeRecursive, IDiskRemote.removeRecursiveGo,
        if_neg (by simp [hdir q hq]), hd, List.foldlM_cons, ih c hcS]
      rfl
  exact fun fuel => main fuel p hp

def wdisk9 : IDiskRemote :=
  { remote_fs_root_path := wroot, metadata_path := wmp, remote_delete_result := none,
    dirs := fun _ => [['d']] }

def wfs9 : FS :=
  { links := [], inodes := [], nextInode := 0, dirPaths := [['d']], removedRemote := [],
    warnings := 0 }

theorem removeRecursive_cyclic_spec_witness :
    wdisk9.removeRecursive 5 wfs9 ['d'] = .error .TOO_DEEP_RECURSION :=
  removeRecursive_cyclic_spec wdisk9 wfs9 [['d']] ['d'] (by decide)
    (by
      intro q hq
      rw [List.mem_singleton] at hq
      subst hq
      decide)
    (by
      intro q hq
      exact ⟨['d'], [], rfl, by decide⟩)
    5

/-- C4: hard-link sharing keeps the reference-count accounting consistent.
Starting from a record with `ref_count = 0` at path `A`, `createHardLink A B`
persists the record with `ref_count = 1` through `A`'s inode and links `B` to
that same inode (so `B` reads back `ref_count = 1`); then removing `A` leaves
`B`'s metadata readable with `ref_count = 0` and all remote objects intact
(no remote delete has been issued), and a subsequent removal of `B` issues a
remote delete of every remote object of the record. -/
theorem hardlink_refcount_spec (disk : IDiskRemote) (fs : FS) (A B : Str) (m : Metadata)
    (hremote : disk.remote_delete_result = none)
    (hload : disk.readMeta fs A = .ok m)
    (href : m.ref_count = 0)
    (hvalid : m.Valid)
    (hB : lookupA fs.links (disk.metadata_path ++ B) = none)
    (hAB : disk.metadata_path ++ A ≠ disk.metadata_path ++ B) :
    ∃ fs1 fs2 fs3,
      disk.createHardLink fs A B = .ok fs1 ∧
      (∃ mB1, disk.readMeta fs1 B = .ok mB1 ∧ mB1.ref_count = 1 ∧
        mB1.remote_fs_objects = m.remote_fs_objects) ∧
      disk.removeMeta fs1 A false = .ok fs2 ∧
      (∃ mB2, disk.readMeta fs2 B = .ok mB2 ∧ mB2.ref_count = 0 ∧
        mB2.remote_fs_objects = m.remote_fs_objects) ∧
      fs2.removedRemote = fs.removedRemote ∧
      disk.removeMeta fs2 B false = .ok fs3 ∧
      fs3.removedRemote = fs.removedRemote ++ m.remote_fs_objects.map Prod.fst := by
  obtain ⟨ino, contents, hlA, hcA, _⟩ := readMeta_ok_elim disk fs A m hload
  obtain ⟨hts, hrc, hlen, hsz⟩ := hvalid
  have hBA : disk.metadata_path ++ B ≠ disk.metadata_path ++ A := fun h => hAB h.symm
  have hsome : (lookupA fs.inodes ino).isSome = true := by simp [hcA]
  have hone : (1 : Nat) < UINT32_WIDTH := by decide
  have hm1 : ({ m with ref_count := (m.ref_count + 1) % UINT32_WIDTH } : Metadata)
      = { m with ref_count := 1 } := by
    have h01 : (0 + 1) % UINT32_WIDTH = 1 := by decide
    rw [href, h01]
  set fullA := disk.metadata_path ++ A with hfullA
  set fullB := disk.metadata_path ++ B with hfullB
  set sv1 := Metadata.save { m with ref_count := 1 } with hsv1
  set mA1 : Metadata := ⟨disk.remote_fs_root_path, disk.metadata_path, A, m.total_size, m.remote_fs_objects, 1, false⟩ with hmA1
  set mB1 : Metadata := ⟨disk.remote_fs_root_path, disk.metadata_path, B, m.total_size, m.remote_fs_objects, 1, false⟩ with hmB1
  set mB0 : Metadata := ⟨disk.remote_fs_root_path, disk.metadata_path, B, m.total_size, m.remote_fs_objects, 0, false⟩ with hmB0
  set sv0 := Metadata.save { mA1 with ref_count := mA1.ref_count - 1 } with hsv0
  set fs1 : FS := { fs with links := (fullB, ino) :: fs.links, inodes := (setA fs.inodes ino sv1) } with hfs1
  set fs2 : FS := { fs1 with links := eraseA fs1.links fullA, inodes := (setA fs1.inodes ino sv0) } with hfs2
  set fs3 : FS := { fs2 with links := eraseA fs2.links fullB, removedRemote := fs2.removedRemote ++ mB0.remote_fs_objects.map Prod.fst } with hfs3
  have hValid1 : ({ m with ref_count := 1 } : Metadata).Valid := ⟨hts, hone, hlen, hsz⟩
  -- step 1: createHardLink
  have hwf1 : fs.writeFile fullA sv1 = { fs with inodes := (setA fs.inodes ino sv1) } := by
    rw [hsv1, FS.writeFile, hlA]
  have h1 : disk.createHardLink fs A B = .ok fs1 := by
    rw [createHardLink_ok disk fs A B m hload, hm1, ← hsv1, hwf1]
    exact createHardLinkFS_ok _ _ _ ino hlA hB
  -- step 2: B reads the bumped record through the shared inode
  have hl1B : lookupA fs1.links fullB = some ino := by
    rw [hfs1]
    show lookupA ((fullB, ino) :: fs.links) fullB = some ino
    rw [lookupA, if_pos rfl]
  have hl1A : lookupA fs1.links fullA = some ino := by
    rw [hfs1]
    show lookupA ((fullB, ino) :: fs.links) fullA = some ino
    rw [lookupA, if_neg hBA]
    exact hlA
  have hc1 : lookupA fs1.inodes ino = some sv1 := by
    rw [hfs1]
    exact lookupA_setA_self _ _ _ hsome
  have hsome1 : (lookupA fs1.inodes ino).isSome = true := by simp [hc1]
  have hload1B : disk.readMeta fs1 B = .ok mB1 := by
    rw [readMeta_eq disk fs1 B ino sv1 hl1B hc1, hsv1]
    exact Metadata.load_save _ _ _ _ hValid1
  have hload1A : disk.readMeta fs1 A = .ok mA1 := by
    rw [readMeta_eq disk fs1 A ino sv1 hl1A hc1, hsv1]
    exact Metadata.load_save _ _ _ _ hValid1
  -- step 3: removing A decrements through the shared inode
  have h3 : disk.removeMeta fs1 A false = .ok fs2 := by
    rw [removeMeta_pos_eq disk fs1 A false mA1 ino hl1A hload1A
      (by rw [hmA1]; exact one_ne_zero)]
  -- step 4: B still reads the record, now with ref_count 0
  have hl2B : lookupA fs2.links fullB = some ino := by
    rw [hfs2]
    show lookupA (eraseA fs1.links fullA) fullB = some ino
    rw [lookupA_eraseA_ne _ _ _ hBA]
    exact hl1B
  have hc2 : lookupA fs2.inodes ino = some sv0 := by
    rw [hfs2]
    exact lookupA_setA_self _ _ _ hsome1
  have hload2B : disk.readMeta fs2 B = .ok mB0 := by
    rw [readMeta_eq disk fs2 B ino sv0 hl2B hc2, hsv0]
    exact Metadata.load_save _ _ _ _ ⟨hts, (by decide : (1 : Nat) - 1 < UINT32_WIDTH), hlen, hsz⟩
  -- step 5: removing B purges the remote objects
  have h5 : disk.removeMeta fs2 B false = .ok fs3 := by
    rw [removeMeta_zero_eq disk fs2 B mB0 ino hl2B hload2B (by rw [hmB0]) hremote]
  refine ⟨fs1, fs2, fs3, h1, ⟨mB1, hload1B, by rw [hmB1], by rw [hmB1]⟩, h3,
    ⟨mB0, hload2B, by rw [hmB0], by rw [hmB0]⟩, by rw [hfs2, hfs1], h5, by rw [hfs3, hfs2, hfs1, hmB0]⟩

theorem hardlink_refcount_spec_witness :
    ∃ fs1 fs2 fs3,
      wdisk.createHardLink wfs0 ['a'] ['b'] = .ok fs1 ∧
      (∃ mB1, wdisk.readMeta fs1 ['b'] = .ok mB1 ∧ mB1.ref_count = 1 ∧
        mB1.remote_fs_objects = wm0.remote_fs_objects) ∧
      wdisk.removeMeta fs1 ['a'] false = .ok fs2 ∧
      (∃ mB2, wdisk.readMeta fs2 ['b'] = .ok mB2 ∧ mB2.ref_count = 0 ∧
        mB2.remote_fs_objects = wm0.remote_fs_objects) ∧
      fs2.removedRemote = wfs0.removedRemote ∧
      wdisk.removeMeta fs2 ['b'] false = .ok fs3 ∧
      fs3.removedRemote = wfs0.removedRemote ++ wm0.remote_fs_objects.map Prod.fst :=
  hardlink_refcount_spec wdisk wfs0 ['a'] ['b'] wm0 rfl (by decide) (by decide)
    ⟨by decide, by decide, by decide, by decide⟩ (by decide) (by decide)
